import Mathlib

/-!
Verification of the Task data-access layer of the DatabaseCRUD repository.

The repository's core is a JavaScript `Task` model exposing CRUD operations
over one MySQL table (`TASK`).  We embed the model shallowly: the database is
a list of stored rows (with the storage-level 0/1 integer representation of
the `completed` column made explicit), each operation is a Lean function from
inputs and a database state to a result and a new state, and the generated
SQL fragments (WHERE / ORDER BY / LIMIT / OFFSET / SET) are given their
relational meaning as list transformations (filter / sort / take / drop /
map).  JavaScript's dynamically typed `completed` input and its strict
`===` comparison are embedded by an explicit value type `JSVal`.
-/

namespace DatabaseCRUD

/-- A dynamically typed JavaScript value, as far as the `completed` input of
`create`/`update` is concerned.  `===` on these values is decidable equality:
values of different constructors are never strictly equal. -/
inductive JSVal where
  | bool : Bool → JSVal
  | num : Int → JSVal
  | str : String → JSVal
  | null : JSVal
deriving DecidableEq

/-- A stored row of the `TASK` table.  `completed` keeps the storage engine's
integer representation (the column is `BOOLEAN`, i.e. `TINYINT(1)`); the
conversion to a native boolean happens in `convertBooleanFields`. -/
structure Row where
  id : Nat
  title : String
  description : Option String
  completed : Int
  created_at : Nat
  updated_at : Nat
deriving DecidableEq

/-- A task as returned across the data-access boundary: `completed` is a
native boolean. -/
structure Task where
  id : Nat
  title : String
  description : Option String
  completed : Bool
  created_at : Nat
  updated_at : Nat
deriving DecidableEq

/-- The database state: the rows of the `TASK` table in insertion order, the
next `AUTO_INCREMENT` id, and the current value of `CURRENT_TIMESTAMP`. -/
structure DB where
  rows : List Row
  nextId : Nat
  now : Nat
deriving DecidableEq

/-- The filters object accepted by `getAll`/`getCount`; `none` is an absent
(`undefined`) option. -/
structure Filters where
  completed : Option Bool := none
  limit : Option Int := none
  offset : Option Int := none
deriving DecidableEq

/-- The data object accepted by `create`; `none` is an absent field. -/
structure CreateData where
  title : Option String := none
  description : Option String := none
  completed : Option JSVal := none
deriving DecidableEq

/-- The data object accepted by `update`.  `description` distinguishes an
absent field (`none`), a supplied JavaScript `null` (`some none`) and a
supplied string (`some (some s)`). -/
structure UpdateData where
  title : Option String := none
  description : Option (Option String) := none
  completed : Option JSVal := none
deriving DecidableEq

/-- `convertBooleanFields`: rewrites the storage-level `completed` integer to
a native boolean (`Boolean(task.completed)`: a number is truthy iff it is
nonzero), leaving every other field unchanged. -/
def convertBooleanFields (r : Row) : Task :=
  { id := r.id, title := r.title, description := r.description,
    completed := r.completed ≠ 0,
    created_at := r.created_at, updated_at := r.updated_at }

/-- `convertTaskArray`: converts every row of an array. -/
def convertTaskArray (rows : List Row) : List Task :=
  rows.map convertBooleanFields

/-- JavaScript's `String.prototype.trim()`: removes whitespace from both
ends of the string.  Written over the character list so it is executable by
the kernel. -/
def jsTrim (s : String) : String :=
  ⟨((s.data.dropWhile Char.isWhitespace).reverse.dropWhile Char.isWhitespace).reverse⟩

/-- The expression `completed === true ? 1 : 0` used by `create` and `update`
to turn the supplied `completed` value into the stored integer: strict
equality against the boolean `true`. -/
def jsStrictEqTrue (v : JSVal) : Int :=
  if v = JSVal.bool true then 1 else 0

/-- Inserts a row into a list sorted descending by `created_at`, keeping the
descending order (the meaning of `ORDER BY created_at DESC`). -/
def insertDesc (r : Row) : List Row → List Row
  | [] => [r]
  | x :: xs => if r.created_at ≤ x.created_at then x :: insertDesc r xs else r :: x :: xs

/-- Sorts rows descending by `created_at`. -/
def sortByCreatedDesc : List Row → List Row
  | [] => []
  | r :: rs => insertDesc r (sortByCreatedDesc rs)

/-- The row-set meaning of `getAll`'s conditionally appended `OFFSET` clause
in a query the storage engine accepts: the clause is appended exactly when
`filters.offset` is truthy (nonzero) and nonnegative, and skips that many
rows.  Whether the engine accepts the clause at all is a separate question —
MySQL only admits `OFFSET` inside a `LIMIT` clause, and `Task.getAllExec`
carries that accept/reject decision. -/
def applyOffset (offset : Option Int) (l : List Row) : List Row :=
  match offset with
  | some n => if n ≠ 0 ∧ 0 ≤ n then l.drop n.toNat else l
  | none => l

/-- The meaning of the conditionally appended `LIMIT` clause of `getAll`:
the clause is appended exactly when `filters.limit` is truthy, positive and
at most 100, and caps the number of returned rows. -/
def applyLimit (limit : Option Int) (l : List Row) : List Row :=
  match limit with
  | some n => if 0 < n ∧ n ≤ 100 then l.take n.toNat else l
  | none => l

/-- The `WHERE` clause of `getAll`/`getCount`: when `filters.completed` is
present, keep the rows whose stored `completed` equals
`filters.completed === true ? 1 : 0`. -/
def applyCompletedFilter (completed : Option Bool) (rows : List Row) : List Row :=
  match completed with
  | some b => rows.filter fun r => r.completed = (if b then 1 else 0)
  | none => rows

namespace Task

/-- The rows denoted by `Task.getAll(filters)`'s built query
`SELECT * FROM TASK [WHERE completed = ?] ORDER BY created_at DESC
[LIMIT n] [OFFSET m]` when the storage engine accepts it, converted by
`convertTaskArray`.  This is what every returning call hands back; the full
round trip, including the engine rejecting a bare `OFFSET` clause, is
`getAllExec` below. -/
def getAll (filters : Filters) (db : DB) : List Task :=
  convertTaskArray
    (applyLimit filters.limit
      (applyOffset filters.offset
        (sortByCreatedDesc (applyCompletedFilter filters.completed db.rows))))

/-- Whether `getAll` appends a `LIMIT` clause to the query: the source's
`filters.limit && filters.limit > 0` guard plus the range check
`limitValue > 0 && limitValue <= 100` (the same condition `applyLimit`
reads). -/
def appendsLimitClause (filters : Filters) : Bool :=
  match filters.limit with
  | some n => 0 < n ∧ n ≤ 100
  | none => false

/-- Whether `getAll` appends an `OFFSET` clause to the query: the source's
`filters.offset && filters.offset >= 0` guard plus the check
`offsetValue >= 0` (the same condition `applyOffset` reads).  It is
independent of whether a `LIMIT` clause was appended. -/
def appendsOffsetClause (filters : Filters) : Bool :=
  match filters.offset with
  | some m => m ≠ 0 ∧ 0 ≤ m
  | none => false

/-- `Task.getAll(filters)` including the round trip to the storage engine.
The engine is MySQL (pinned by the repository's docker-compose, init scripts
and mysql2 driver), whose grammar admits `OFFSET` only inside a `LIMIT`
clause — `LIMIT n OFFSET m` — so a query carrying a bare `OFFSET` clause is
rejected with parse error ER_PARSE_ERROR, which `pool.execute` raises and
`getAll` rethrows.  That happens exactly when the offset condition holds and
the limit condition does not; otherwise the accepted query denotes
`Task.getAll`. -/
def getAllExec (filters : Filters) (db : DB) : Except String (List Task) :=
  if appendsOffsetClause filters && !appendsLimitClause filters then
    Except.error "ER_PARSE_ERROR"
  else
    Except.ok (getAll filters db)

/-- `Task.getById(id)`: `SELECT * FROM TASK WHERE id = ?`; the first matching
row converted, or null when there is none. -/
def getById (id : Nat) (db : DB) : Option Task :=
  (db.rows.find? fun r => r.id = id).map convertBooleanFields

/-- The row inserted by `create`'s `INSERT INTO TASK` statement: `title || ''`
(empty string when the title is absent or empty, the supplied string
otherwise, with no trimming), `description || null` (null when absent or
empty), `completed === true ? 1 : 0` with `completed` defaulting to `false`,
and the id and timestamps assigned by the storage engine. -/
def newRowOf (taskData : CreateData) (db : DB) : Row :=
  { id := db.nextId,
    title := taskData.title.getD "",
    description :=
      match taskData.description with
      | some d => if d = "" then none else some d
      | none => none,
    completed := jsStrictEqTrue (taskData.completed.getD (JSVal.bool false)),
    created_at := db.now, updated_at := db.now }

/-- The database state after `create`'s `INSERT`: the new row appended, the
`AUTO_INCREMENT` counter advanced. -/
def insertedDB (taskData : CreateData) (db : DB) : DB :=
  { rows := db.rows ++ [newRowOf taskData db], nextId := db.nextId + 1, now := db.now }

/-- `Task.create(taskData)`: runs the `INSERT` and then re-reads the row by
the assigned id (`getById(result.insertId)`). -/
def create (taskData : CreateData) (db : DB) : Option Task × DB :=
  (getById db.nextId (insertedDB taskData db), insertedDB taskData db)

/-- Whether `update`'s dynamically built `SET` clause is nonempty: at least
one of the three recognized fields is present in the data. -/
def hasUpdates (taskData : UpdateData) : Bool :=
  taskData.title.isSome || taskData.description.isSome || taskData.completed.isSome

/-- The effect of `update`'s `SET` clause on the targeted row: each present
field is rewritten (`title.trim()`; `description ? description.trim() : null`;
`completed === true ? 1 : 0`) and `updated_at = CURRENT_TIMESTAMP`. -/
def applyUpdate (taskData : UpdateData) (now : Nat) (r : Row) : Row :=
  let r1 :=
    match taskData.title with
    | some t => { r with title := jsTrim t }
    | none => r
  let r2 :=
    match taskData.description with
    | some dv =>
        { r1 with description :=
            match dv with
            | some s => if s = "" then none else some (jsTrim s)
            | none => none }
    | none => r1
  let r3 :=
    match taskData.completed with
    | some v => { r2 with completed := jsStrictEqTrue v }
    | none => r2
  { r3 with updated_at := now }

/-- The database state after `update`'s `UPDATE TASK SET ... WHERE id = ?`:
every row matching the id is rewritten by the `SET` clause. -/
def writtenDB (id : Nat) (taskData : UpdateData) (db : DB) : DB :=
  { db with rows := db.rows.map fun r => if r.id = id then applyUpdate taskData db.now r else r }

/-- `Task.update(id, taskData)`: checks existence via `getById` (null when
absent), returns the existing task unchanged when no recognized field is
present, otherwise runs the dynamically built `UPDATE ... WHERE id = ?` and
re-reads the row. -/
def update (id : Nat) (taskData : UpdateData) (db : DB) : Option Task × DB :=
  match getById id db with
  | none => (none, db)
  | some existingTask =>
    if hasUpdates taskData then
      (getById id (writtenDB id taskData db), writtenDB id taskData db)
    else
      (some existingTask, db)

/-- `Task.delete(id)`: checks existence via `getById` (false when absent),
otherwise runs `DELETE FROM TASK WHERE id = ?` and returns true. -/
def delete (id : Nat) (db : DB) : Bool × DB :=
  match getById id db with
  | none => (false, db)
  | some _ => (true, { db with rows := db.rows.filter fun r => r.id ≠ id })

/-- `Task.getCount(filters)`: `SELECT COUNT(*) FROM TASK
[WHERE completed = ?]`; only the `completed` filter is read. -/
def getCount (filters : Filters) (db : DB) : Nat :=
  (applyCompletedFilter filters.completed db.rows).length

/-- `Task.markAsCompleted(id)`: defined as `update(id, {completed: true})`. -/
def markAsCompleted (id : Nat) (db : DB) : Option Task × DB :=
  update id { completed := some (JSVal.bool true) } db

/-- `Task.markAsPending(id)`: defined as `update(id, {completed: false})`. -/
def markAsPending (id : Nat) (db : DB) : Option Task × DB :=
  update id { completed := some (JSVal.bool false) } db

end Task

/-! Helper lemmas about the sorting, pagination and lookup building blocks. -/

/-- The ordering contract of `ORDER BY created_at DESC` as a relation on
rows: the later element was created no later than the earlier one. -/
def createdDesc (a b : Row) : Prop := b.created_at ≤ a.created_at

theorem mem_insertDesc {a r : Row} {l : List Row} :
    a ∈ insertDesc r l ↔ a = r ∨ a ∈ l := by
  induction l with
  | nil => simp [insertDesc]
  | cons x xs ih =>
    by_cases h : r.created_at ≤ x.created_at
    · simp only [insertDesc, if_pos h, List.mem_cons, ih]
      tauto
    · simp only [insertDesc, if_neg h, List.mem_cons]

theorem pairwise_insertDesc {r : Row} {l : List Row}
    (h : List.Pairwise createdDesc l) :
    List.Pairwise createdDesc (insertDesc r l) := by
  induction l with
  | nil => simp [insertDesc]
  | cons x xs ih =>
    rcases List.pairwise_cons.mp h with ⟨hx, hxs⟩
    by_cases hc : r.created_at ≤ x.created_at
    · rw [insertDesc, if_pos hc]
      refine List.pairwise_cons.mpr ⟨?_, ih hxs⟩
      intro y hy
      rcases mem_insertDesc.mp hy with rfl | hyl
      · exact hc
      · exact hx y hyl
    · rw [insertDesc, if_neg hc]
      refine List.pairwise_cons.mpr ⟨?_, h⟩
      intro y hy
      rcases List.mem_cons.mp hy with rfl | hyl
      · exact le_of_not_le hc
      · exact le_trans (hx y hyl) (le_of_not_le hc)

theorem mem_sortByCreatedDesc {a : Row} {l : List Row} :
    a ∈ sortByCreatedDesc l ↔ a ∈ l := by
  induction l with
  | nil => simp [sortByCreatedDesc]
  | cons x xs ih =>
    simp only [sortByCreatedDesc, mem_insertDesc, List.mem_cons, ih]

theorem pairwise_sortByCreatedDesc (l : List Row) :
    List.Pairwise createdDesc (sortByCreatedDesc l) := by
  induction l with
  | nil => simp [sortByCreatedDesc]
  | cons x xs ih => exact pairwise_insertDesc ih

theorem applyOffset_sublist (offset : Option Int) (l : List Row) :
    (applyOffset offset l).Sublist l := by
  cases offset with
  | none => exact List.Sublist.refl l
  | some n =>
    by_cases h : n ≠ 0 ∧ 0 ≤ n
    · rw [applyOffset, if_pos h]
      exact List.drop_sublist _ _
    · rw [applyOffset, if_neg h]

theorem applyLimit_sublist (limit : Option Int) (l : List Row) :
    (applyLimit limit l).Sublist l := by
  cases limit with
  | none => exact List.Sublist.refl l
  | some n =>
    by_cases h : 0 < n ∧ n ≤ 100
    · rw [applyLimit, if_pos h]
      exact List.take_sublist _ _
    · rw [applyLimit, if_neg h]

theorem applyCompletedFilter_sublist (c : Option Bool) (l : List Row) :
    (applyCompletedFilter c l).Sublist l := by
  cases c with
  | none => exact List.Sublist.refl l
  | some b => exact List.filter_sublist l

/-- Every task returned by `getAll` is the boolean-converted image of a row
that passed the `WHERE` clause. -/
theorem mem_getAll {t : Task} {f : Filters} {db : DB} (h : t ∈ Task.getAll f db) :
    ∃ r, r ∈ applyCompletedFilter f.completed db.rows ∧ t = convertBooleanFields r := by
  rcases List.mem_map.mp h with ⟨r, hr, rfl⟩
  refine ⟨r, ?_, rfl⟩
  have h1 : r ∈ applyOffset f.offset (sortByCreatedDesc (applyCompletedFilter f.completed db.rows)) :=
    (applyLimit_sublist f.limit _).subset hr
  have h2 := (applyOffset_sublist f.offset _).subset h1
  exact mem_sortByCreatedDesc.mp h2

/-- The full `getAll` pipeline stays descending on `created_at`. -/
theorem getAll_pairwise (f : Filters) (db : DB) :
    List.Pairwise (fun a b : Task => b.created_at ≤ a.created_at) (Task.getAll f db) := by
  have hs := pairwise_sortByCreatedDesc (applyCompletedFilter f.completed db.rows)
  have h1 : List.Pairwise createdDesc
      (applyLimit f.limit (applyOffset f.offset
        (sortByCreatedDesc (applyCompletedFilter f.completed db.rows)))) :=
    List.Pairwise.sublist ((applyLimit_sublist f.limit _).trans (applyOffset_sublist f.offset _)) hs
  exact List.pairwise_map.mpr h1

theorem find?_append_eq_right {p : Row → Bool} {l1 l2 : List Row}
    (h : ∀ r ∈ l1, p r = false) : (l1 ++ l2).find? p = l2.find? p := by
  induction l1 with
  | nil => rfl
  | cons x xs ih =>
    rw [List.cons_append, List.find?_cons_of_neg]
    · exact ih fun r hr => h r (List.mem_cons_of_mem x hr)
    · simp [h x (List.mem_cons_self x xs)]

theorem getById_eq_none_iff {id : Nat} {db : DB} :
    Task.getById id db = none ↔ ∀ r ∈ db.rows, r.id ≠ id := by
  simp [Task.getById, List.find?_eq_none]

/-- Every task returned by `getById` is the boolean-converted image of a
stored row. -/
theorem getById_some_mem {id : Nat} {db : DB} {t : Task}
    (h : Task.getById id db = some t) :
    ∃ r, r ∈ db.rows ∧ t = convertBooleanFields r := by
  rw [Task.getById] at h
  rcases Option.map_eq_some'.mp h with ⟨r, hr, rfl⟩
  exact ⟨r, List.mem_of_find?_eq_some hr, rfl⟩

theorem jsStrictEqTrue_zero_or_one (v : JSVal) :
    jsStrictEqTrue v = 0 ∨ jsStrictEqTrue v = 1 := by
  rw [jsStrictEqTrue]
  split
  · exact Or.inr rfl
  · exact Or.inl rfl

theorem applyUpdate_title {ud : UpdateData} {t : String} (h : ud.title = some t)
    (now : Nat) (r : Row) : (Task.applyUpdate ud now r).title = jsTrim t := by
  cases hd : ud.description <;> cases hc : ud.completed <;>
    simp [Task.applyUpdate, h, hd, hc]

theorem applyUpdate_completed {ud : UpdateData} {v : JSVal} (h : ud.completed = some v)
    (now : Nat) (r : Row) : (Task.applyUpdate ud now r).completed = jsStrictEqTrue v := by
  cases ht : ud.title <;> cases hd : ud.description <;>
    simp [Task.applyUpdate, h, ht, hd]

theorem applyUpdate_description_null {ud : UpdateData} (h : ud.description = some none)
    (now : Nat) (r : Row) : (Task.applyUpdate ud now r).description = none := by
  cases ht : ud.title <;> cases hc : ud.completed <;>
    simp [Task.applyUpdate, h, ht, hc]

theorem applyUpdate_completed_cases (ud : UpdateData) (now : Nat) (r : Row) :
    (Task.applyUpdate ud now r).completed = r.completed
  ∨ (Task.applyUpdate ud now r).completed = 0
  ∨ (Task.applyUpdate ud now r).completed = 1 := by
  cases hc : ud.completed with
  | none =>
    refine Or.inl ?_
    cases ht : ud.title <;> cases hd : ud.description <;>
      simp [Task.applyUpdate, hc, ht, hd]
  | some v =>
    rcases jsStrictEqTrue_zero_or_one v with h0 | h1
    · exact Or.inr (Or.inl ((applyUpdate_completed hc now r).trans h0))
    · exact Or.inr (Or.inr ((applyUpdate_completed hc now r).trans h1))

/-- A present field makes `update`'s `SET` clause nonempty. -/
theorem hasUpdates_of_title {ud : UpdateData} {t : String} (h : ud.title = some t) :
    Task.hasUpdates ud = true := by
  simp [Task.hasUpdates, h]

theorem hasUpdates_of_description {ud : UpdateData} {d : Option String}
    (h : ud.description = some d) : Task.hasUpdates ud = true := by
  simp [Task.hasUpdates, h]

theorem hasUpdates_of_completed {ud : UpdateData} {v : JSVal} (h : ud.completed = some v) :
    Task.hasUpdates ud = true := by
  simp [Task.hasUpdates, h]

/-- When the `SET` clause is nonempty, every row of the post-`update` state
carrying the targeted id is the `SET`-clause image of a stored row with that
id. -/
theorem update_targeted_row {id : Nat} {ud : UpdateData} {db : DB} {r : Row}
    (hu : Task.hasUpdates ud = true)
    (hr : r ∈ (Task.update id ud db).2.rows) (hid : r.id = id) :
    ∃ x, x ∈ db.rows ∧ x.id = id ∧ r = Task.applyUpdate ud db.now x := by
  cases h : Task.getById id db with
  | none =>
    simp only [Task.update, h] at hr
    exact absurd hid (getById_eq_none_iff.mp h r hr)
  | some t =>
    simp only [Task.update, h, hu, if_true] at hr
    rcases List.mem_map.mp hr with ⟨x, hx, hxr⟩
    by_cases hxid : x.id = id
    · rw [if_pos hxid] at hxr
      exact ⟨x, hx, hxid, hxr.symm⟩
    · rw [if_neg hxid] at hxr
      exact absurd (hxr ▸ hid) hxid

/-- When ids in the table are below the `AUTO_INCREMENT` counter, `create`'s
read-back finds exactly the row it inserted. -/
theorem create_result (cd : CreateData) (db : DB)
    (hfresh : ∀ r ∈ db.rows, r.id < db.nextId) :
    (Task.create cd db).1 = some (convertBooleanFields (Task.newRowOf cd db)) := by
  have hp : ∀ r ∈ db.rows, decide (r.id = db.nextId) = false := by
    intro r hr
    simpa using Nat.ne_of_lt (hfresh r hr)
  show ((Task.insertedDB cd db).rows.find? fun r => r.id = db.nextId).map convertBooleanFields = _
  rw [show (Task.insertedDB cd db).rows = db.rows ++ [Task.newRowOf cd db] from rfl]
  rw [find?_append_eq_right hp]
  simp [List.find?, Task.newRowOf]

theorem count_partition (l : List Row)
    (h : ∀ r ∈ l, r.completed = 0 ∨ r.completed = 1) :
    (l.filter fun r => r.completed = 1).length + (l.filter fun r => r.completed = 0).length
      = l.length := by
  induction l with
  | nil => rfl
  | cons x xs ih =>
    have hxs := ih fun r hr => h r (List.mem_cons_of_mem x hr)
    rcases h x (List.mem_cons_self x xs) with h0 | h1
    · simp only [List.filter_cons, h0]
      norm_num
      omega
    · simp only [List.filter_cons, h1]
      norm_num
      omega

/-- The invariant that the stored `completed` column only ever holds the
two-valued 0/1 representation. -/
def storedBoolOK (db : DB) : Prop := ∀ r ∈ db.rows, r.completed = 0 ∨ r.completed = 1

/-! Concrete sample data used by the witnesses. -/

def rowA : Row :=
  { id := 1, title := "Task A", description := some "da", completed := 1,
    created_at := 10, updated_at := 10 }

def rowB : Row :=
  { id := 2, title := "Task B", description := none, completed := 0,
    created_at := 20, updated_at := 20 }

def dbEmpty : DB := { rows := [], nextId := 1, now := 0 }

def dbAB : DB := { rows := [rowA, rowB], nextId := 3, now := 30 }

/-! The claims. -/

/-- C9: for every id and state, `markAsCompleted(id)` is exactly
`update(id, {completed: true})` and `markAsPending(id)` is exactly
`update(id, {completed: false})`: same result (task or absent) and same
state effect, with no additional semantics. -/
theorem markAs_wrappers_equiv_update (id : Nat) (db : DB) :
    Task.markAsCompleted id db = Task.update id { completed := some (JSVal.bool true) } db
  ∧ Task.markAsPending id db = Task.update id { completed := some (JSVal.bool false) } db :=
  ⟨rfl, rfl⟩

/-- C4: `update` on an id with no matching task returns absent and leaves the
state untouched; `update` on an existing task with zero recognized fields
returns the existing task unmodified and leaves the state (hence every field,
`updated_at` included) untouched. -/
theorem update_frame (id : Nat) (taskData : UpdateData) (db : DB) :
    (Task.getById id db = none → Task.update id taskData db = (none, db))
  ∧ (∀ t, Task.getById id db = some t → Task.hasUpdates taskData = false →
      Task.update id taskData db = (some t, db)) := by
  constructor
  · intro h
    simp [Task.update, h]
  · intro t ht hu
    simp [Task.update, ht, hu]

/-- C4 witness: on the two-task sample, `update` of an unknown id 99 returns
absent without a write, and `update 1 {}` returns task 1 unchanged without a
write. -/
theorem update_frame_witness :
    Task.update 99 {} dbAB = (none, dbAB)
  ∧ Task.update 1 {} dbAB = (some (convertBooleanFields rowA), dbAB) := by
  constructor
  · exact (update_frame 99 {} dbAB).1 (by decide)
  · exact (update_frame 1 {} dbAB).2 (convertBooleanFields rowA) (by decide) (by decide)

/-- C8: `delete(id)` returns true exactly when a row with that id existed
(and it removes every such row, so a subsequent `getById` yields absent);
on an unknown id it returns false and changes nothing. -/
theorem delete_semantics (id : Nat) (db : DB) :
    ((Task.delete id db).1 = true ↔ Task.getById id db ≠ none)
  ∧ ((Task.delete id db).1 = true → Task.getById id (Task.delete id db).2 = none)
  ∧ (Task.getById id db = none → Task.delete id db = (false, db)) := by
  cases h : Task.getById id db with
  | none =>
    refine ⟨?_, ?_, ?_⟩ <;> simp [Task.delete, h]
  | some t =>
    refine ⟨?_, ?_, ?_⟩
    · simp [Task.delete, h]
    · intro _
      simp only [Task.delete, h]
      rw [Task.getById, Option.map_eq_none', List.find?_eq_none]
      intro x hx
      have hne := (List.mem_filter.mp hx).2
      simp only [decide_eq_true_eq] at hne ⊢
      exact hne
    · intro hn
      simp [h] at hn

/-- C8 witness: deleting task 1 from the two-task sample returns true and a
subsequent `getById 1` yields absent; deleting the unknown id 99 returns
false and leaves the state unchanged. -/
theorem delete_semantics_witness :
    (Task.delete 1 dbAB).1 = true
  ∧ Task.getById 1 (Task.delete 1 dbAB).2 = none
  ∧ Task.delete 99 dbAB = (false, dbAB) := by
  refine ⟨?_, ?_, ?_⟩
  · exact (delete_semantics 1 dbAB).1.mpr (by decide)
  · exact (delete_semantics 1 dbAB).2.1 (by decide)
  · exact (delete_semantics 99 dbAB).2.2 (by decide)

/-- C1: the code fails the claim at a concrete input.  With the out-of-range
limit 500 silently dropped and the nonnegative offset 5 kept, the built
query carries a bare `OFFSET` clause, which the storage engine rejects with
a parse error — the call fails instead of returning results with the offset
applied; the same happens with the offset alone.  The drop-and-succeed
behavior the claim describes does hold for an out-of-range limit by itself,
for a negative offset by itself, and for a nonnegative offset accompanied by
an in-range limit (which then skips that many rows of the ordered result
while the limit bounds its size). -/
theorem getAll_bare_offset_parse_error :
    Task.getAllExec { limit := some 500, offset := some 5 } dbAB
      = Except.error "ER_PARSE_ERROR"
  ∧ Task.getAllExec { offset := some 5 } dbAB = Except.error "ER_PARSE_ERROR"
  ∧ Task.getAllExec { limit := some 500 } dbAB = Except.ok (Task.getAll {} dbAB)
  ∧ Task.getAllExec { offset := some (-3) } dbAB = Except.ok (Task.getAll {} dbAB)
  ∧ Task.getAllExec { limit := some 100, offset := some 1 } dbAB
      = Except.ok ((Task.getAll {} dbAB).drop 1)
  ∧ (Task.getAll { limit := some 1 } dbAB).length ≤ 1 :=
  ⟨rfl, rfl, rfl, rfl, rfl, by decide⟩

/-- C3: for every filters argument, `getAll` returns a defined (possibly
empty) list of tasks ordered descending by `created_at` (newest first), and
when the `completed` filter is present every returned task's `completed`
flag equals it. -/
theorem getAll_ordered_and_filtered (f : Filters) (db : DB) :
    List.Pairwise (fun a b : Task => b.created_at ≤ a.created_at) (Task.getAll f db)
  ∧ ∀ b, f.completed = some b → ∀ t ∈ Task.getAll f db, t.completed = b := by
  refine ⟨getAll_pairwise f db, ?_⟩
  intro b hb t ht
  rcases mem_getAll ht with ⟨r, hr, rfl⟩
  rw [hb] at hr
  simp only [applyCompletedFilter] at hr
  have hcond := of_decide_eq_true (List.mem_filter.mp hr).2
  cases b
  · have h0 : r.completed = 0 := by simpa using hcond
    simp [convertBooleanFields, h0]
  · have h1 : r.completed = 1 := by simpa using hcond
    simp [convertBooleanFields, h1]

/-- C3 witness: on the two-task sample with `completed = true` required, the
converted first sample task is returned and its flag is true. -/
theorem getAll_ordered_and_filtered_witness :
    (convertBooleanFields rowA).completed = true :=
  (getAll_ordered_and_filtered { completed := some true } dbAB).2 true rfl
    (convertBooleanFields rowA) (by decide)

/-- C2 counterexample: `create` applies no trimming — creating a task with
title `" a "` persists the title `" a "` verbatim (which trims to something
else, i.e. carries whitespace), and creating a task with the title absent
persists the empty string.  Both contradict the claim that a persisted title
is never empty and never whitespace-padded. -/
theorem create_persists_untrimmed_title :
    (Task.create { title := some " a " } dbEmpty).1.map Task.title = some " a "
  ∧ jsTrim " a " ≠ " a "
  ∧ (Task.create {} dbEmpty).1.map Task.title = some "" := by
  refine ⟨rfl, by decide, rfl⟩

/-- C2 amended: only `update` trims — an `update` supplying a title persists
exactly the trimmed input for every row it targets (possibly the empty
string, when the input trims to empty), while `create` persists the supplied
title verbatim, substituting the empty string when the title is absent. -/
theorem title_trim_semantics (db : DB) (cd : CreateData) (id : Nat)
    (ud : UpdateData) (t : String) :
    (Task.newRowOf cd db).title = cd.title.getD ""
  ∧ (Task.create cd db).2.rows = db.rows ++ [Task.newRowOf cd db]
  ∧ (ud.title = some t →
      ∀ r ∈ (Task.update id ud db).2.rows, r.id = id → r.title = jsTrim t) := by
  refine ⟨rfl, rfl, ?_⟩
  intro ht r hr hid
  rcases update_targeted_row (hasUpdates_of_title ht) hr hid with ⟨x, _, _, rfl⟩
  exact applyUpdate_title ht db.now x

/-- C2 amended witness: updating task 1's title to `" b "` persists `"b"`. -/
theorem title_trim_semantics_witness :
    (Task.applyUpdate { title := some " b " } dbAB.now rowA).title = jsTrim " b " :=
  (title_trim_semantics dbAB {} 1 { title := some " b " } " b ").2.2 rfl
    (Task.applyUpdate { title := some " b " } dbAB.now rowA) (by decide) (by decide)

/-- C5: a `create` whose description is absent stores null for the
description (null being a value distinct from the empty string), and
re-reading the created task by its id yields that null description; an
`update` supplying a null description stores null for every row it
targets. -/
theorem absent_description_stored_null (cd : CreateData) (db : DB)
    (id : Nat) (ud : UpdateData)
    (hfresh : ∀ r ∈ db.rows, r.id < db.nextId) (hd : cd.description = none) :
    (Task.create cd db).1.map Task.description = some none
  ∧ (∀ t, (Task.create cd db).1 = some t →
      Task.getById t.id (Task.create cd db).2 = some t ∧ t.description = none)
  ∧ (ud.description = some none →
      ∀ r ∈ (Task.update id ud db).2.rows, r.id = id → r.description = none)
  ∧ (none : Option String) ≠ some "" := by
  have hres := create_result cd db hfresh
  have hdesc : (Task.newRowOf cd db).description = none := by
    simp [Task.newRowOf, hd]
  refine ⟨?_, ?_, ?_, by simp⟩
  · rw [hres]
    simp [convertBooleanFields, hdesc]
  · intro t ht
    rw [hres] at ht
    rcases Option.some.injEq .. ▸ ht with rfl
    have hid : (convertBooleanFields (Task.newRowOf cd db)).id = db.nextId := rfl
    constructor
    · rw [hid]
      exact hres
    · simp [convertBooleanFields, hdesc]
  · intro hud r hr hid
    rcases update_targeted_row (hasUpdates_of_description hud) hr hid with ⟨x, _, _, rfl⟩
    exact applyUpdate_description_null hud db.now x

/-- C5 witness: creating a task with description omitted on the two-task
sample yields a task whose description is null. -/
theorem absent_description_stored_null_witness :
    (Task.create { title := some "x" } dbAB).1.map Task.description = some none :=
  (absent_description_stored_null { title := some "x" } dbAB 1 {} (by decide) rfl).1

/-- C6: `getCount` reads only the `completed` filter, so any two filters
agreeing on it (whatever their `limit`/`offset`) give the same count; and on
any table state whose stored `completed` column is two-valued, the counts of
completed and of pending tasks add up to the unfiltered count. -/
theorem getCount_ignores_pagination_and_partitions (f g : Filters) (db : DB)
    (hc : f.completed = g.completed) (hinv : storedBoolOK db) :
    Task.getCount f db = Task.getCount g db
  ∧ Task.getCount { completed := some true } db + Task.getCount { completed := some false } db
      = Task.getCount { completed := none } db := by
  constructor
  · rw [Task.getCount, Task.getCount, hc]
  · show (db.rows.filter fun r => r.completed = (if true then 1 else 0)).length
        + (db.rows.filter fun r => r.completed = (if false then 1 else 0)).length
        = db.rows.length
    simp only [if_true, if_false]
    exact count_partition db.rows hinv

/-- C6 witness: on the two-task sample, a `completed = true` count with stray
`limit`/`offset` options equals the plain `completed = true` count, and the
completed and pending counts partition the total. -/
theorem getCount_ignores_pagination_and_partitions_witness :
    Task.getCount { completed := some true, limit := some 5, offset := some 2 } dbAB
      = Task.getCount { completed := some true } dbAB
  ∧ Task.getCount { completed := some true } dbAB + Task.getCount { completed := some false } dbAB
      = Task.getCount { completed := none } dbAB :=
  getCount_ignores_pagination_and_partitions
    { completed := some true, limit := some 5, offset := some 2 }
    { completed := some true } dbAB rfl (by unfold storedBoolOK; decide)

/-- C10: the value persisted for `completed` by `create` and `update` is the
result of the strict comparison `completed === true`: 1 exactly for the
boolean `true`, 0 for every other value — including the truthy number 1 and
the truthy string `"true"`. -/
theorem completed_persisted_by_strict_equality (db : DB) (id : Nat) (v : JSVal)
    (cd : CreateData) (ud : UpdateData) :
    (cd.completed = some v → (Task.newRowOf cd db).completed = jsStrictEqTrue v)
  ∧ (ud.completed = some v →
      ∀ r ∈ (Task.update id ud db).2.rows, r.id = id → r.completed = jsStrictEqTrue v)
  ∧ jsStrictEqTrue (JSVal.bool true) = 1
  ∧ jsStrictEqTrue (JSVal.num 1) = 0
  ∧ jsStrictEqTrue (JSVal.str "true") = 0 := by
  refine ⟨?_, ?_, rfl, rfl, rfl⟩
  · intro hc
    simp [Task.newRowOf, hc]
  · intro hc r hr hid
    rcases update_targeted_row (hasUpdates_of_completed hc) hr hid with ⟨x, _, _, rfl⟩
    exact applyUpdate_completed hc db.now x

/-- C10 witness: creating with `completed` set to the number 1 stores 0,
with the string `"true"` stores 0, and with the boolean `true` stores 1;
updating task 1 with the number 1 stores 0. -/
theorem completed_persisted_by_strict_equality_witness :
    (Task.newRowOf { completed := some (JSVal.num 1) } dbEmpty).completed = 0
  ∧ (Task.newRowOf { completed := some (JSVal.str "true") } dbEmpty).completed = 0
  ∧ (Task.newRowOf { completed := some (JSVal.bool true) } dbEmpty).completed = 1
  ∧ (Task.applyUpdate { completed := some (JSVal.num 1) } dbAB.now rowA).completed = 0 := by
  refine ⟨?_, ?_, ?_, ?_⟩
  · exact (completed_persisted_by_strict_equality dbEmpty 1 (JSVal.num 1)
      { completed := some (JSVal.num 1) } {}).1 rfl
  · exact (completed_persisted_by_strict_equality dbEmpty 1 (JSVal.str "true")
      { completed := some (JSVal.str "true") } {}).1 rfl
  · exact (completed_persisted_by_strict_equality dbEmpty 1 (JSVal.bool true)
      { completed := some (JSVal.bool true) } {}).1 rfl
  · exact (completed_persisted_by_strict_equality dbAB 1 (JSVal.num 1) {}
      { completed := some (JSVal.num 1) }).2.1 rfl
      (Task.applyUpdate { completed := some (JSVal.num 1) } dbAB.now rowA)
      (by decide) (by decide)

/-- C7: every task handed out across the data-access boundary (by `getAll`,
`getById`, and the read-back of `create` and `update` — hence also of the
`markAs` wrappers, which are `update`) is `convertBooleanFields` of a stored
row, so its `completed` field is a native boolean and the storage engine's
0/1 integer never reaches a caller; and every write (`create`, `update`,
`delete`) keeps the stored `completed` column two-valued, converting boolean
inputs to 0/1. -/
theorem boolean_boundary (f : Filters) (id : Nat) (cd : CreateData) (ud : UpdateData)
    (db : DB) (hinv : storedBoolOK db) :
    (∀ t ∈ Task.getAll f db, ∃ r, r ∈ db.rows ∧ t = convertBooleanFields r)
  ∧ (∀ t, Task.getById id db = some t → ∃ r, r ∈ db.rows ∧ t = convertBooleanFields r)
  ∧ (∀ t, (Task.create cd db).1 = some t →
      ∃ r, r ∈ (Task.create cd db).2.rows ∧ t = convertBooleanFields r)
  ∧ (∀ t, (Task.update id ud db).1 = some t →
      ∃ r, r ∈ (Task.update id ud db).2.rows ∧ t = convertBooleanFields r)
  ∧ storedBoolOK (Task.create cd db).2
  ∧ storedBoolOK (Task.update id ud db).2
  ∧ storedBoolOK (Task.delete id db).2 := by
  refine ⟨?_, ?_, ?_, ?_, ?_, ?_, ?_⟩
  · intro t ht
    rcases mem_getAll ht with ⟨r, hr, rfl⟩
    exact ⟨r, (applyCompletedFilter_sublist f.completed db.rows).subset hr, rfl⟩
  · intro t ht
    exact getById_some_mem ht
  · intro t ht
    have ht' : Task.getById db.nextId (Task.create cd db).2 = some t := ht
    exact getById_some_mem ht'
  · intro t ht
    cases h : Task.getById id db with
    | none =>
      rw [show (Task.update id ud db).1 = none by simp [Task.update, h]] at ht
      exact Option.noConfusion ht
    | some t0 =>
      by_cases hu : Task.hasUpdates ud = true
      · have h1 : Task.update id ud db
            = (Task.getById id (Task.writtenDB id ud db), Task.writtenDB id ud db) := by
          simp [Task.update, h, hu]
        rw [h1] at ht ⊢
        exact getById_some_mem ht
      · have hu' : Task.hasUpdates ud = false := by
          cases hb : Task.hasUpdates ud
          · rfl
          · exact absurd hb hu
        have h1 : Task.update id ud db = (some t0, db) := by
          simp [Task.update, h, hu']
        rw [h1] at ht ⊢
        cases Option.some_inj.mp ht
        exact getById_some_mem h
  · intro r hr
    have hr' : r ∈ db.rows ++ [Task.newRowOf cd db] := hr
    rcases List.mem_append.mp hr' with h1 | h2
    · exact hinv r h1
    · cases List.mem_singleton.mp h2
      exact jsStrictEqTrue_zero_or_one _
  · intro r hr
    cases h : Task.getById id db with
    | none =>
      rw [show (Task.update id ud db).2 = db by simp [Task.update, h]] at hr
      exact hinv r hr
    | some t0 =>
      by_cases hu : Task.hasUpdates ud = true
      · rw [show (Task.update id ud db).2 = Task.writtenDB id ud db by
          simp [Task.update, h, hu]] at hr
        have hr' : r ∈ db.rows.map fun x => if x.id = id then Task.applyUpdate ud db.now x else x := hr
        rcases List.mem_map.mp hr' with ⟨x, hx, hxr⟩
        by_cases hxid : x.id = id
        · rw [if_pos hxid] at hxr
          rcases applyUpdate_completed_cases ud db.now x with he | h0 | h1
          · rw [← hxr, he]
            exact hinv x hx
          · exact Or.inl (hxr ▸ h0)
          · exact Or.inr (hxr ▸ h1)
        · rw [if_neg hxid] at hxr
          exact hinv r (hxr ▸ hx)
      · have hu' : Task.hasUpdates ud = false := by
          cases hb : Task.hasUpdates ud
          · rfl
          · exact absurd hb hu
        rw [show (Task.update id ud db).2 = db by simp [Task.update, h, hu']] at hr
        exact hinv r hr
  · intro r hr
    cases h : Task.getById id db with
    | none =>
      rw [show (Task.delete id db).2 = db by simp [Task.delete, h]] at hr
      exact hinv r hr
    | some t0 =>
      rw [show (Task.delete id db).2 = { db with rows := db.rows.filter fun x => x.id ≠ id } by
        simp [Task.delete, h]] at hr
      exact hinv r ((List.filter_sublist _).subset hr)

/-- C7 witness: on the two-task sample (whose stored column is two-valued),
the states after a `create`, after an `update` supplying the truthy number 1,
and after a `delete` all keep the stored `completed` column two-valued. -/
theorem boolean_boundary_witness :
    storedBoolOK (Task.create { title := some "x" } dbAB).2
  ∧ storedBoolOK (Task.update 1 { completed := some (JSVal.num 1) } dbAB).2
  ∧ storedBoolOK (Task.delete 2 dbAB).2 := by
  have h1 := boolean_boundary {} 1 { title := some "x" } { completed := some (JSVal.num 1) }
    dbAB (by unfold storedBoolOK; decide)
  have h2 := boolean_boundary {} 2 { title := some "x" } { completed := some (JSVal.num 1) }
    dbAB (by unfold storedBoolOK; decide)
  exact ⟨h1.2.2.2.2.1, h1.2.2.2.2.2.1, h2.2.2.2.2.2.2⟩

end DatabaseCRUD
